/-
Verification development for ghSpyglass (gh_spyglass.py).

Shallow embedding conventions:
* Python `datetime` values are modelled as natural numbers of microseconds
  since 0001-01-01T00:00:00 (the proleptic Gregorian timeline that
  `datetime` arithmetic uses).  `timedelta` arithmetic is exact microsecond
  arithmetic; `td / 2` rounds half to even (CPython `_divide_and_round`),
  embedded as `pyHalf`.
* `dt.date()` truncates to the containing calendar day, embedded as
  `dateOf` (day ordinal, 0 = 0001-01-01).
* The remote GitHub search endpoint is an arbitrary function `Src`.  The
  code encodes each request as the query string
  `query_base ++ " created:<startDate>..<endDate>"` (an injective encoding
  of the triple) plus an optional token header, so a remote behaviour is a
  function of `(query_base, startDate, endDate, token)`.  A non-success
  HTTP status (which `raise_for_status` turns into an exception) is
  `.error status`; a JSON body is `.ok` of a `Resp`, whose optional
  `total_count` field models `resp.get("total_count", 0)`.
* Functions that perform remote calls return, next to their
  `Except`-result, the list of issued requests in order, so that claims
  about the number of remote calls are statable.
-/
import Mathlib

namespace GhSpyglass

/-- `timedelta(seconds=1)` in microseconds. -/
def usPerSec : Nat := 1000000

/-- One calendar day in microseconds. -/
def usPerDay : Nat := 86400000000

/-- A decoded JSON response body: the optional integer `total_count` field
(`none` models a JSON object lacking the field). -/
structure Resp where
  total_count : Option Int
  deriving DecidableEq, Repr

/-- A remote search endpoint: `(query_base, startDate, endDate, token)` to
HTTP outcome.  `.error code` is a non-success HTTP status. -/
abbrev Src : Type := String → Nat → Nat → Option String → Except Nat Resp

/-- One issued remote request: `(query_base, startDate, endDate)`. -/
abbrev RQuery : Type := String × Nat × Nat

/-- `dt.date()` as a day ordinal (0 = 0001-01-01). -/
def dateOf (t : Nat) : Nat := t / usPerDay

/-- Python `timedelta / 2`: exact halving with round-half-to-even
(CPython `_divide_and_round(a, 2)`). -/
def pyHalf (a : Nat) : Nat :=
  if a % 2 = 0 then a / 2
  else if (a / 2) % 2 = 0 then a / 2 else a / 2 + 1

/-- Python `" OR ".join(parts)`. -/
def orJoin (parts : List String) : String :=
  match parts with
  | [] => ""
  | p :: ps => ps.foldl (fun a b => a ++ " OR " ++ b) p

/-- The `parts` list assembled by `build_query`: topic terms in input
order, then keyword terms in input order. -/
def mkParts (topics keywords : List String) : List String :=
  topics.map (fun t => "topic:" ++ t) ++
    keywords.map (fun k => k ++ " in:name,description,readme")

/-- `build_query(topics, keywords)`. -/
def build_query (topics keywords : List String) : String :=
  match mkParts topics keywords with
  | [] => ""
  | [p] => p
  | parts => "(" ++ orJoin parts ++ ")"

/-- Fuelled form of `count_range(query_base, start, end, token, exact)`.
The Python function recurses on a strictly decreasing range; the `fuel`
argument is an upper bound on the recursion depth making the recursion
structural (any `fuel > end_ - start` gives the same result, see
`count_rangeF_fuel_irrelevant`, so the zero-fuel branch is never reached
from `count_range`).  Returns the result (count, or propagated HTTP
error) together with the list of remote requests issued, in order. -/
def count_rangeF (src : Src) (query_base : String) (token : Option String)
    (exact_ : Bool) : Nat → Nat → Nat → Except Nat Int × List RQuery
  | 0, _, _ => (.ok 0, [])
  | fuel + 1, start, end_ =>
    match src query_base (dateOf start) (dateOf end_) token with
    | .error code => (.error code, [(query_base, dateOf start, dateOf end_)])
    | .ok resp =>
      if exact_ = true ∧ 1000 ≤ resp.total_count.getD 0 ∧ start < end_ then
        match count_rangeF src query_base token exact_ fuel
            start (start + pyHalf (end_ - start)) with
        | (.error code, ltr) =>
          (.error code, (query_base, dateOf start, dateOf end_) :: ltr)
        | (.ok left, ltr) =>
          if start + pyHalf (end_ - start) + usPerSec > end_ then
            (.ok left, (query_base, dateOf start, dateOf end_) :: ltr)
          else
            match count_rangeF src query_base token exact_ fuel
                (start + pyHalf (end_ - start) + usPerSec) end_ with
            | (.error code, rtr) =>
              (.error code, (query_base, dateOf start, dateOf end_) :: ltr ++ rtr)
            | (.ok right, rtr) =>
              (.ok (left + right), (query_base, dateOf start, dateOf end_) :: ltr ++ rtr)
      else (.ok (resp.total_count.getD 0), [(query_base, dateOf start, dateOf end_)])

/-- The midpoint split strictly shrinks the range on the left. -/
theorem pyHalf_lt {d : Nat} (hd : 0 < d) : pyHalf d < d := by
  unfold pyHalf
  split_ifs <;> omega

/-- The result of `count_rangeF` does not depend on the fuel, as long as
the fuel exceeds the length of the range. -/
theorem count_rangeF_fuel_irrelevant {src : Src} {query_base : String}
    {token : Option String} {exact_ : Bool} :
    ∀ (m n s e : Nat), e - s < m → e - s < n →
      count_rangeF src query_base token exact_ m s e =
        count_rangeF src query_base token exact_ n s e := by
  intro m
  induction m with
  | zero => intro n s e h1 h2; omega
  | succ f ih =>
    intro n s e h1 h2
    match n, h2 with
    | g + 1, h2 =>
      unfold count_rangeF
      cases hsrc : src query_base (dateOf s) (dateOf e) token with
      | error code => rfl
      | ok resp =>
        dsimp only
        by_cases hc : exact_ = true ∧ 1000 ≤ resp.total_count.getD 0 ∧ s < e
        · have hlt : s < e := hc.2.2
          have hp : pyHalf (e - s) < e - s := pyHalf_lt (by omega)
          have hs : usPerSec = 1000000 := rfl
          rw [if_pos hc, if_pos hc,
            ih g s (s + pyHalf (e - s)) (by omega) (by omega),
            ih g (s + pyHalf (e - s) + usPerSec) e (by omega) (by omega)]
        · rw [if_neg hc, if_neg hc]

/-- `count_range(query_base, start, end, token, exact)`: the fuelled
recursion with sufficient fuel. -/
def count_range (src : Src) (query_base : String) (start : Nat) (end_ : Nat)
    (token : Option String) (exact_ : Bool) : Except Nat Int × List RQuery :=
  count_rangeF src query_base token exact_ (end_ - start + 1) start end_

/-- Gregorian leap-year rule (as used by `datetime`). -/
def isLeap (y : Nat) : Bool := y % 4 = 0 ∧ (y % 100 ≠ 0 ∨ y % 400 = 0)

/-- Number of days in month `m` of year `y`. -/
def daysInMonth (y m : Nat) : Nat :=
  if m = 2 then (if isLeap y then 29 else 28)
  else if m = 4 ∨ m = 6 ∨ m = 9 ∨ m = 11 then 30 else 31

/-- The `%m-` part of `strptime(s, "%Y-%m-%d")`: CPython matches month with
the ordered-alternation regex `1[0-2]|0[1-9]|[1-9]`, greedy with
backtracking, followed by the literal `-`.  Returns the month and the
remaining characters. -/
def parseMonth (cs : List Char) : Option (Nat × List Char) :=
  match cs with
  | '1' :: '0' :: '-' :: r => some (10, r)
  | '1' :: '1' :: '-' :: r => some (11, r)
  | '1' :: '2' :: '-' :: r => some (12, r)
  | c :: '-' :: r => if '1' ≤ c ∧ c ≤ '9' then some (c.toNat - 48, r) else none
  | '0' :: c :: '-' :: r => if '1' ≤ c ∧ c ≤ '9' then some (c.toNat - 48, r) else none
  | _ => none

/-- The `%d` part of `strptime(s, "%Y-%m-%d")`: the ordered-alternation
regex `3[01]|[12]\d|0[1-9]|[1-9]` (greedy, no backtracking since the
pattern ends here), which must consume the whole remainder — leftover
characters are "unconverted data" and make `strptime` raise. -/
def parseDay (cs : List Char) : Option Nat :=
  match cs with
  | [c] => if '1' ≤ c ∧ c ≤ '9' then some (c.toNat - 48) else none
  | ['3', c] => if c = '0' ∨ c = '1' then some (30 + (c.toNat - 48)) else none
  | ['0', c] => if '1' ≤ c ∧ c ≤ '9' then some (c.toNat - 48) else none
  | [c1, c2] =>
    if ('1' ≤ c1 ∧ c1 ≤ '2') ∧ c2.isDigit then
      some ((c1.toNat - 48) * 10 + (c2.toNat - 48))
    else none
  | _ => none

/-- Days from the beginning of year `y` to the beginning of its month `m`. -/
def daysBeforeMonth (y m : Nat) : Nat :=
  ((List.range (m - 1)).map (fun i => daysInMonth y (i + 1))).sum

/-- Proleptic-Gregorian day ordinal of the date `y-m-d`
(0 = 0001-01-01, matching `datetime.toordinal() - 1`). -/
def toOrdinal (y m d : Nat) : Nat :=
  365 * (y - 1) + (y - 1) / 4 - (y - 1) / 100 + (y - 1) / 400 +
    daysBeforeMonth y m + (d - 1)

/-- `parse_date(s) = datetime.strptime(s, "%Y-%m-%d")`, as the midnight
timestamp in microseconds; `none` when `strptime` raises (bad syntax, or
`datetime(y, m, d)` out of range — `%Y` is exactly four digits, year 0 is
below `MINYEAR`, day must fit the month). -/
def parse_date (s : String) : Option Nat :=
  match s.data with
  | a :: b :: c :: d :: '-' :: rest =>
    if a.isDigit ∧ b.isDigit ∧ c.isDigit ∧ d.isDigit then
      let y := 1000 * (a.toNat - 48) + 100 * (b.toNat - 48) +
        10 * (c.toNat - 48) + (d.toNat - 48)
      match parseMonth rest with
      | some (m, rest2) =>
        match parseDay rest2 with
        | some dd =>
          if 1 ≤ y ∧ dd ≤ daysInMonth y m then
            some (toOrdinal y m dd * usPerDay)
          else none
        | none => none
      | none => none
    else none
  | _ => none

/-- The parsed command line (argparse glue is out of scope; fields mirror
the flags, with argparse defaults).  `envToken` stands for the
`GITHUB_TOKEN` environment variable. -/
structure Args where
  start : String
  end_ : String
  topics : List String := []
  keywords : List String := []
  per_term : Bool := false
  token : Option String := none
  exact_ : Bool := false

/-- The `--per-term` loop of `run`: count each term over the range in
order, stopping at the first propagated error, summing the counts and
concatenating the request traces. -/
def goTerms (src : Src) (terms : List String) (start end_ : Nat)
    (token : Option String) (exact_ : Bool) : Except Nat Int × List RQuery :=
  match terms with
  | [] => (.ok 0, [])
  | t :: ts =>
    let r := count_range src t start end_ token exact_
    match r.1 with
    | .error code => (.error code, r.2)
    | .ok c =>
      let rs := goTerms src ts start end_ token exact_
      match rs.1 with
      | .error code => (.error code, r.2 ++ rs.2)
      | .ok c2 => (.ok (c + c2), r.2 ++ rs.2)

/-- `run(argv)` on parsed arguments: the exit code (or a propagated remote
error, which in the program escapes `run` as an uncaught exception),
together with the remote requests issued.  Printing and `--sleep` are
side-effect glue with no bearing on the results. -/
def run (src : Src) (envToken : Option String) (args : Args) :
    Except Nat Nat × List RQuery :=
  match parse_date args.start, parse_date args.end_ with
  | some s, some e =>
    if s > e then (.ok 2, [])
    else
      let token := match args.token with
        | some t => if t = "" then envToken else some t
        | none => envToken
      let query_base := build_query args.topics args.keywords
      if query_base = "" then (.ok 2, [])
      else if args.per_term then
        let terms := args.topics.map (fun t => "topic:" ++ t) ++
          args.keywords.map (fun k => k ++ " in:name,description,readme")
        let r := goTerms src terms s e token args.exact_
        match r.1 with
        | .error code => (.error code, r.2)
        | .ok _ => (.ok 0, r.2)
      else
        let r := count_range src query_base s e token args.exact_
        match r.1 with
        | .error code => (.error code, r.2)
        | .ok _ => (.ok 0, r.2)
  | _, _ => (.ok 2, [])

/-- The naive day-by-day sum of a per-day match count `f` over the
inclusive day range `[d1, d2]`. -/
def daySum (f : Nat → Int) (d1 d2 : Nat) : Int :=
  ((List.range (d2 + 1 - d1)).map (fun i => f (d1 + i))).sum

/-- A remote source that always reports `total_count = 1000` (at the cap). -/
def capSrc : Src := fun _ _ _ _ => .ok ⟨some 1000⟩

/-- A deterministic remote source with exactly one matching repository per
calendar day: the reported count for a queried range is the number of days
in it. -/
def oneMatchPerDaySrc : Src :=
  fun _ d1 d2 _ => .ok ⟨some ((d2 : Int) + 1 - (d1 : Int))⟩

/-! ### Unfolding lemmas for `count_range` -/

/-- Definitional one-step unfolding of `count_rangeF` at positive fuel. -/
theorem count_rangeF_succ (src : Src) (query_base : String)
    (token : Option String) (exact_ : Bool) (fuel start end_ : Nat) :
    count_rangeF src query_base token exact_ (fuel + 1) start end_ =
      (match src query_base (dateOf start) (dateOf end_) token with
       | .error code => (.error code, [(query_base, dateOf start, dateOf end_)])
       | .ok resp =>
         if exact_ = true ∧ 1000 ≤ resp.total_count.getD 0 ∧ start < end_ then
           match count_rangeF src query_base token exact_ fuel
               start (start + pyHalf (end_ - start)) with
           | (.error code, ltr) =>
             (.error code, (query_base, dateOf start, dateOf end_) :: ltr)
           | (.ok left, ltr) =>
             if start + pyHalf (end_ - start) + usPerSec > end_ then
               (.ok left, (query_base, dateOf start, dateOf end_) :: ltr)
             else
               match count_rangeF src query_base token exact_ fuel
                   (start + pyHalf (end_ - start) + usPerSec) end_ with
               | (.error code, rtr) =>
                 (.error code, (query_base, dateOf start, dateOf end_) :: ltr ++ rtr)
               | (.ok right, rtr) =>
                 (.ok (left + right), (query_base, dateOf start, dateOf end_) :: ltr ++ rtr)
       else (.ok (resp.total_count.getD 0), [(query_base, dateOf start, dateOf end_)])) := rfl

/-- A failing root request propagates at once: one request, error result. -/
theorem count_range_err {src : Src} {qb : String} {s e : Nat}
    {tok : Option String} {ex : Bool} {code : Nat}
    (h : src qb (dateOf s) (dateOf e) tok = .error code) :
    count_range src qb s e tok ex = (.error code, [(qb, dateOf s, dateOf e)]) := by
  unfold count_range
  rw [count_rangeF_succ, h]

/-- When the split condition fails, the reported total is returned as-is
after a single request. -/
theorem count_range_leaf {src : Src} {qb : String} {s e : Nat}
    {tok : Option String} {ex : Bool} {resp : Resp}
    (h : src qb (dateOf s) (dateOf e) tok = .ok resp)
    (hc : ¬(ex = true ∧ 1000 ≤ resp.total_count.getD 0 ∧ s < e)) :
    count_range src qb s e tok ex =
      (.ok (resp.total_count.getD 0), [(qb, dateOf s, dateOf e)]) := by
  unfold count_range
  rw [count_rangeF_succ, h]
  dsimp only
  rw [if_neg hc]

/-- When the split condition holds, `count_range` bisects exactly as the
source code does: left half `[start, mid]` first, then — unless
`right_start` overshoots `end` — the right half `[mid + 1s, end]`. -/
theorem count_range_split {src : Src} {qb : String} {s e : Nat}
    {tok : Option String} {ex : Bool} {resp : Resp}
    (h : src qb (dateOf s) (dateOf e) tok = .ok resp)
    (hc : ex = true ∧ 1000 ≤ resp.total_count.getD 0 ∧ s < e) :
    count_range src qb s e tok ex =
      (match count_range src qb s (s + pyHalf (e - s)) tok ex with
       | (.error code, ltr) => (.error code, (qb, dateOf s, dateOf e) :: ltr)
       | (.ok left, ltr) =>
         if s + pyHalf (e - s) + usPerSec > e then
           (.ok left, (qb, dateOf s, dateOf e) :: ltr)
         else
           match count_range src qb (s + pyHalf (e - s) + usPerSec) e tok ex with
           | (.error code, rtr) => (.error code, (qb, dateOf s, dateOf e) :: ltr ++ rtr)
           | (.ok right, rtr) => (.ok (left + right), (qb, dateOf s, dateOf e) :: ltr ++ rtr)) := by
  have hlt : s < e := hc.2.2
  have hp : pyHalf (e - s) < e - s := pyHalf_lt (by omega)
  have hs : usPerSec = 1000000 := rfl
  unfold count_range
  rw [count_rangeF_succ, h]
  dsimp only
  rw [if_pos hc]
  rw [count_rangeF_fuel_irrelevant (e - s) (s + pyHalf (e - s) - s + 1)
    s (s + pyHalf (e - s)) (by omega) (by omega)]
  rw [count_rangeF_fuel_irrelevant (e - s) (e - (s + pyHalf (e - s) + usPerSec) + 1)
    (s + pyHalf (e - s) + usPerSec) e (by omega) (by omega)]

/-- Every invocation issues its own request first: the trace is nonempty
and starts with the query for the full range. -/
theorem count_range_trace_head {src : Src} {qb : String} {s e : Nat}
    {tok : Option String} {ex : Bool} :
    ∃ tl, (count_range src qb s e tok ex).2 = (qb, dateOf s, dateOf e) :: tl := by
  cases hsrc : src qb (dateOf s) (dateOf e) tok with
  | error code => rw [count_range_err hsrc]; exact ⟨[], rfl⟩
  | ok resp =>
    by_cases hc : ex = true ∧ 1000 ≤ resp.total_count.getD 0 ∧ s < e
    · rw [count_range_split hsrc hc]
      rcases hl : count_range src qb s (s + pyHalf (e - s)) tok ex with ⟨le, ltr⟩
      cases le with
      | error code => exact ⟨ltr, rfl⟩
      | ok left =>
        dsimp only
        by_cases hg : s + pyHalf (e - s) + usPerSec > e
        · rw [if_pos hg]; exact ⟨ltr, rfl⟩
        · rw [if_neg hg]
          rcases hr : count_range src qb (s + pyHalf (e - s) + usPerSec) e tok ex
            with ⟨re, rtr⟩
          cases re with
          | error code => exact ⟨ltr ++ rtr, rfl⟩
          | ok right => exact ⟨ltr ++ rtr, rfl⟩
    · rw [count_range_leaf hsrc hc]; exact ⟨[], rfl⟩

/-- If the remote source never fails, `count_range` always returns a
value (in particular the exact-mode recursion terminates with a finite
sum and never diverges or errors). -/
theorem count_range_ok_of_src_ok {src : Src}
    (hsrc : ∀ qb d1 d2 tok, ∃ r, src qb d1 d2 tok = .ok r) :
    ∀ (n : Nat) (qb : String) (s e : Nat) (tok : Option String) (ex : Bool),
      e - s ≤ n → ∃ v tr, count_range src qb s e tok ex = (.ok v, tr) := by
  intro n
  induction n with
  | zero =>
    intro qb s e tok ex hn
    obtain ⟨resp, hresp⟩ := hsrc qb (dateOf s) (dateOf e) tok
    exact ⟨_, _, count_range_leaf hresp (by omega)⟩
  | succ n ih =>
    intro qb s e tok ex hn
    obtain ⟨resp, hresp⟩ := hsrc qb (dateOf s) (dateOf e) tok
    by_cases hc : ex = true ∧ 1000 ≤ resp.total_count.getD 0 ∧ s < e
    · have hlt : s < e := hc.2.2
      have hp : pyHalf (e - s) < e - s := pyHalf_lt (by omega)
      have hus : usPerSec = 1000000 := rfl
      rw [count_range_split hresp hc]
      obtain ⟨lv, ltr, hl⟩ :=
        ih qb s (s + pyHalf (e - s)) tok ex (by omega)
      rw [hl]
      dsimp only
      by_cases hg : s + pyHalf (e - s) + usPerSec > e
      · rw [if_pos hg]; exact ⟨lv, _, rfl⟩
      · rw [if_neg hg]
        obtain ⟨rv, rtr, hr⟩ :=
          ih qb (s + pyHalf (e - s) + usPerSec) e tok ex (by omega)
        rw [hr]
        exact ⟨lv + rv, _, rfl⟩
    · exact ⟨_, _, count_range_leaf hresp hc⟩

/-- A value is returned only if every issued request succeeded: a
non-success HTTP status anywhere in the recursion forces the whole result
to be an error (no partial sum). -/
theorem count_range_calls_ok {src : Src} :
    ∀ (n : Nat) (qb : String) (s e : Nat) (tok : Option String) (ex : Bool)
      (v : Int) (tr : List RQuery), e - s ≤ n →
      count_range src qb s e tok ex = (.ok v, tr) →
      ∀ p ∈ tr, ∃ r, src p.1 p.2.1 p.2.2 tok = .ok r := by
  intro n
  induction n with
  | zero =>
    intro qb s e tok ex v tr hn hcr p hp
    cases hsrc : src qb (dateOf s) (dateOf e) tok with
    | error code =>
      rw [count_range_err hsrc] at hcr
      simp at hcr
    | ok resp =>
      rw [count_range_leaf hsrc (by omega)] at hcr
      simp only [Prod.mk.injEq, Except.ok.injEq] at hcr
      obtain ⟨h1, h2⟩ := hcr
      subst h2
      simp only [List.mem_singleton] at hp
      subst hp
      exact ⟨resp, hsrc⟩
  | succ n ih =>
    intro qb s e tok ex v tr hn hcr p hp
    cases hsrc : src qb (dateOf s) (dateOf e) tok with
    | error code =>
      rw [count_range_err hsrc] at hcr
      simp at hcr
    | ok resp =>
      by_cases hc : ex = true ∧ 1000 ≤ resp.total_count.getD 0 ∧ s < e
      · have hlt : s < e := hc.2.2
        have hpy : pyHalf (e - s) < e - s := pyHalf_lt (by omega)
        have hus : usPerSec = 1000000 := rfl
        rw [count_range_split hsrc hc] at hcr
        rcases hl : count_range src qb s (s + pyHalf (e - s)) tok ex with ⟨le, ltr⟩
        rw [hl] at hcr
        cases le with
        | error code => simp at hcr
        | ok lv =>
          dsimp only at hcr
          by_cases hg : s + pyHalf (e - s) + usPerSec > e
          · rw [if_pos hg] at hcr
            simp only [Prod.mk.injEq, Except.ok.injEq] at hcr
            obtain ⟨h1, h2⟩ := hcr
            subst h2
            rcases List.mem_cons.mp hp with hpq | hpl
            · subst hpq; exact ⟨resp, hsrc⟩
            · exact ih qb s (s + pyHalf (e - s)) tok ex lv ltr (by omega) hl p hpl
          · rw [if_neg hg] at hcr
            rcases hr : count_range src qb (s + pyHalf (e - s) + usPerSec) e tok ex
              with ⟨re, rtr⟩
            rw [hr] at hcr
            cases re with
            | error code => simp at hcr
            | ok rv =>
              simp only [Prod.mk.injEq, Except.ok.injEq] at hcr
              obtain ⟨h1, h2⟩ := hcr
              subst h2
              rcases List.mem_cons.mp hp with hpq | hplr
              · subst hpq; exact ⟨resp, hsrc⟩
              · rcases List.mem_append.mp hplr with hpl | hpr
                · exact ih qb s (s + pyHalf (e - s)) tok ex lv ltr (by omega) hl p hpl
                · exact ih qb (s + pyHalf (e - s) + usPerSec) e tok ex rv rtr
                    (by omega) hr p hpr
      · rw [count_range_leaf hsrc hc] at hcr
        simp only [Prod.mk.injEq, Except.ok.injEq] at hcr
        obtain ⟨h1, h2⟩ := hcr
        subst h2
        simp only [List.mem_singleton] at hp
        subst hp
        exact ⟨resp, hsrc⟩

/-! ### Lemmas about `build_query` -/

/-- Folding the `OR`-join over a nonempty tail. -/
theorem foldl_or (l : List String) : ∀ a : String, l ≠ [] →
    List.foldl (fun x y => x ++ " OR " ++ y) a l = a ++ " OR " ++ orJoin l := by
  induction l with
  | nil => intro a h; exact absurd rfl h
  | cons y ys ih =>
    intro a h
    by_cases hys : ys = []
    · subst hys; rfl
    · simp only [List.foldl_cons]
      rw [ih (a ++ " OR " ++ y) hys]
      have hy : orJoin (y :: ys) = y ++ " OR " ++ orJoin ys := ih y hys
      rw [hy]
      simp [String.append_assoc]

/-- `" OR ".join` over a concatenation of nonempty lists splits into the
two joins around one `" OR "`. -/
theorem orJoin_append (l1 l2 : List String) (h1 : l1 ≠ []) (h2 : l2 ≠ []) :
    orJoin (l1 ++ l2) = orJoin l1 ++ " OR " ++ orJoin l2 := by
  rcases l1 with _ | ⟨x, xs⟩
  · exact absurd rfl h1
  · show orJoin (x :: (xs ++ l2)) = _
    unfold orJoin
    dsimp only
    rw [List.foldl_append]
    exact foldl_or l2 _ h2

/-- With no keywords the parts are exactly the topic terms. -/
theorem mkParts_no_keywords (ts : List String) :
    mkParts ts [] = ts.map (fun t => "topic:" ++ t) := by
  simp [mkParts]

/-- With no topics the parts are exactly the keyword terms. -/
theorem mkParts_no_topics (ks : List String) :
    mkParts [] ks = ks.map (fun k => k ++ " in:name,description,readme") := by
  simp [mkParts]

/-- With at least two parts, `build_query` parenthesizes the `OR`-join. -/
theorem build_query_many (ts ks : List String)
    (h : 2 ≤ (mkParts ts ks).length) :
    build_query ts ks = "(" ++ orJoin (mkParts ts ks) ++ ")" := by
  unfold build_query
  rcases hm : mkParts ts ks with _ | ⟨a, _ | ⟨b, l⟩⟩
  · rw [hm] at h; simp at h
  · rw [hm] at h; simp at h
  · rfl

/-!  ### Claim theorems for `build_query`  -/

/-- C6: `build_query` returns the empty string when both lists are empty;
a single resulting term is returned unmodified (one topic `t` gives
`topic:t`, one keyword `k` gives `k in:name,description,readme`); and
with two or more terms all of them are joined by `" OR "` inside one pair
of parentheses. -/
theorem build_query_shape :
    build_query [] [] = "" ∧
    (∀ t, build_query [t] [] = "topic:" ++ t) ∧
    (∀ k, build_query [] [k] = k ++ " in:name,description,readme") ∧
    (∀ ts ks, 2 ≤ (mkParts ts ks).length →
      build_query ts ks = "(" ++ orJoin (mkParts ts ks) ++ ")") :=
  ⟨rfl, fun _ => rfl, fun _ => rfl, build_query_many⟩

/-- Witness for C6 at the spec's own example: topic `cli` plus keyword
`tool` give two terms, hence the parenthesized `OR`-join. -/
theorem build_query_shape_witness :
    2 ≤ (mkParts ["cli"] ["tool"]).length ∧
    build_query ["cli"] ["tool"] = "(" ++ orJoin (mkParts ["cli"] ["tool"]) ++ ")" :=
  ⟨by decide, build_query_shape.2.2.2 ["cli"] ["tool"] (by decide)⟩

/-- C10: the terms of `build_query` appear in a fixed order — all topic
terms first, in input order, then all keyword terms, in input order.  With
both lists nonempty the output splits as the topic-term join followed by
the keyword-term join; with a single nonempty list the output is that
list's join in input order. -/
theorem build_query_term_order :
    (∀ ts ks : List String, ts ≠ [] → ks ≠ [] →
      build_query ts ks =
        "(" ++ (orJoin (ts.map (fun t => "topic:" ++ t)) ++ " OR " ++
          orJoin (ks.map (fun k => k ++ " in:name,description,readme"))) ++ ")") ∧
    (∀ ts : List String, 2 ≤ ts.length →
      build_query ts [] = "(" ++ orJoin (ts.map (fun t => "topic:" ++ t)) ++ ")") ∧
    (∀ ks : List String, 2 ≤ ks.length →
      build_query [] ks =
        "(" ++ orJoin (ks.map (fun k => k ++ " in:name,description,readme")) ++ ")") := by
  refine ⟨?_, ?_, ?_⟩
  · intro ts ks hts hks
    have hlen : 2 ≤ (mkParts ts ks).length := by
      have h1 : ts.length ≠ 0 := fun h => hts (List.length_eq_zero.mp h)
      have h2 : ks.length ≠ 0 := fun h => hks (List.length_eq_zero.mp h)
      simp only [mkParts, List.length_append, List.length_map]
      omega
    rw [build_query_many ts ks hlen]
    unfold mkParts
    rw [orJoin_append _ _ (by simpa using hts) (by simpa using hks)]
  · intro ts hts
    have hlen : 2 ≤ (mkParts ts []).length := by
      rw [mkParts_no_keywords]; simpa using hts
    rw [build_query_many ts [] hlen, mkParts_no_keywords]
  · intro ks hks
    have hlen : 2 ≤ (mkParts [] ks).length := by
      rw [mkParts_no_topics]; simpa using hks
    rw [build_query_many [] ks hlen, mkParts_no_topics]

/-- Witness for C10: two topics and one keyword, in fixed order. -/
theorem build_query_term_order_witness :
    build_query ["cli", "api"] ["tool"] =
      "(" ++ (orJoin ["topic:cli", "topic:api"] ++ " OR " ++
        orJoin ["tool in:name,description,readme"]) ++ ")" :=
  build_query_term_order.1 ["cli", "api"] ["tool"] (by decide) (by decide)

/-- A remote source that reports a fixed total above the cap. -/
def bigSrc : Src := fun _ _ _ _ => .ok ⟨some 1234⟩

/-- A remote source that always fails with HTTP status 403. -/
def errSrc : Src := fun _ _ _ _ => .error 403

/-- Concrete evaluation: at the cap on the sub-day range `[0, 1µs]` the
code splits, the degenerate right half is skipped, and two identical
requests are issued. -/
theorem capSrc_eval :
    count_range capSrc "x" 0 1 none true = (.ok 1000, [("x", 0, 0), ("x", 0, 0)]) := by
  have hleaf : count_range capSrc "x" 0 (0 + pyHalf (1 - 0)) none true =
      (.ok ((⟨some 1000⟩ : Resp).total_count.getD 0),
        [("x", dateOf 0, dateOf (0 + pyHalf (1 - 0)))]) :=
    count_range_leaf rfl (by decide)
  rw [count_range_split rfl (by decide), hleaf]
  dsimp only
  rw [if_pos (by decide : 0 + pyHalf (1 - 0) + usPerSec > 1)]
  rfl

/-!  ### Claim theorems for `count_range`  -/

/-- C5: with `exact=false`, `count_range` issues exactly one remote
request and returns the response's `total_count` verbatim, whatever its
value (including values at or above the 1000 cap). -/
theorem nonexact_single_call :
    ∀ (src : Src) (qb : String) (s e : Nat) (tok : Option String)
      (resp : Resp) (n : Int),
      src qb (dateOf s) (dateOf e) tok = .ok resp →
      resp.total_count = some n →
      count_range src qb s e tok false = (.ok n, [(qb, dateOf s, dateOf e)]) := by
  intro src qb s e tok resp n h hn
  rw [count_range_leaf h (fun hcon => by exact absurd hcon.1 (by simp)), hn]
  rfl

/-- Witness for C5: a source reporting 1234 (above the cap); one request,
1234 returned verbatim. -/
theorem nonexact_single_call_witness :
    count_range bigSrc "q" 0 usPerDay none false =
      (.ok 1234, [("q", dateOf 0, dateOf usPerDay)]) :=
  nonexact_single_call bigSrc "q" 0 usPerDay none ⟨some 1234⟩ 1234 rfl rfl

/-- C9: a JSON response lacking the `total_count` field is treated as
zero: `count_range` returns 0 (and zero is below the cap, so no split is
ever triggered, whatever `exact` is). -/
theorem missing_total_count_zero :
    ∀ (src : Src) (qb : String) (s e : Nat) (tok : Option String) (ex : Bool),
      src qb (dateOf s) (dateOf e) tok = .ok ⟨none⟩ →
      count_range src qb s e tok ex = (.ok 0, [(qb, dateOf s, dateOf e)]) := by
  intro src qb s e tok ex h
  exact count_range_leaf h (fun hcon => by simpa using hcon.2.1)

/-- A remote source whose JSON object has no `total_count` field. -/
def noFieldSrc : Src := fun _ _ _ _ => .ok ⟨none⟩

/-- Witness for C9. -/
theorem missing_total_count_zero_witness :
    count_range noFieldSrc "q" 0 usPerDay none true =
      (.ok 0, [("q", dateOf 0, dateOf usPerDay)]) :=
  missing_total_count_zero noFieldSrc "q" 0 usPerDay none true rfl

/-- C2: exact-mode termination.  (i) Against the always-at-cap source the
recursion terminates with a finite value for every range (the function is
total, so this is witnessed by it returning an `.ok` sum).  (ii) For a
single-day range (`start == end` — equal datetimes) the single reported
value is returned after one request, with no split attempted.  (iii) Each
recursive call strictly shrinks the range: the left sub-range measure
`pyHalf d` and the right sub-range measure `d - (pyHalf d + 1s)` are both
smaller than the parent measure `d`. -/
theorem exact_mode_terminates :
    (∀ (qb : String) (s e : Nat) (tok : Option String),
      ∃ v tr, count_range capSrc qb s e tok true = (.ok v, tr)) ∧
    (∀ (src : Src) (qb : String) (s : Nat) (tok : Option String) (ex : Bool)
      (resp : Resp), src qb (dateOf s) (dateOf s) tok = .ok resp →
      count_range src qb s s tok ex =
        (.ok (resp.total_count.getD 0), [(qb, dateOf s, dateOf s)])) ∧
    (∀ d : Nat, 0 < d → pyHalf d < d ∧ d - (pyHalf d + usPerSec) < d) := by
  refine ⟨?_, ?_, ?_⟩
  · intro qb s e tok
    exact count_range_ok_of_src_ok (fun _ _ _ _ => ⟨⟨some 1000⟩, rfl⟩)
      (e - s) qb s e tok true le_rfl
  · intro src qb s tok ex resp h
    exact count_range_leaf h (fun hcon => absurd hcon.2.2 (lt_irrefl s))
  · intro d hd
    refine ⟨pyHalf_lt hd, ?_⟩
    have : usPerSec = 1000000 := rfl
    omega

/-- Witness for C2: a 2-day all-at-cap range returns a value; a
single-day range returns the capped 1000 after one request; the measures
shrink at `d = 5`. -/
theorem exact_mode_terminates_witness :
    (∃ v tr, count_range capSrc "q" 0 (2 * usPerDay) none true = (.ok v, tr)) ∧
    count_range capSrc "q" usPerDay usPerDay none true =
      (.ok 1000, [("q", dateOf usPerDay, dateOf usPerDay)]) ∧
    (pyHalf 5 < 5 ∧ 5 - (pyHalf 5 + usPerSec) < 5) :=
  ⟨exact_mode_terminates.1 "q" 0 (2 * usPerDay) none,
   exact_mode_terminates.2.1 capSrc "q" usPerDay none true ⟨some 1000⟩ rfl,
   exact_mode_terminates.2.2 5 (by decide)⟩

/-- C8: a non-success HTTP status propagates without retry and aborts the
whole computation.  (i) A failing request yields the error as the overall
result, after exactly that one request (no retry of it).  (ii) A value is
returned only when every issued request succeeded, so no partial sum from
completed sub-ranges is ever reported after a failure. -/
theorem remote_error_aborts :
    (∀ (src : Src) (qb : String) (s e : Nat) (tok : Option String) (ex : Bool)
      (code : Nat), src qb (dateOf s) (dateOf e) tok = .error code →
      count_range src qb s e tok ex = (.error code, [(qb, dateOf s, dateOf e)])) ∧
    (∀ (src : Src) (qb : String) (s e : Nat) (tok : Option String) (ex : Bool)
      (v : Int) (tr : List RQuery),
      count_range src qb s e tok ex = (.ok v, tr) →
      ∀ p ∈ tr, ∃ r, src p.1 p.2.1 p.2.2 tok = .ok r) :=
  ⟨fun _ _ _ _ _ _ _ h => count_range_err h,
   fun _ qb s e tok ex v tr h =>
     count_range_calls_ok (e - s) qb s e tok ex v tr le_rfl h⟩

/-- Witness for C8: the always-403 source aborts immediately; for a
successful capped run every issued request succeeded. -/
theorem remote_error_aborts_witness :
    count_range errSrc "q" 0 usPerDay none true =
      (.error 403, [("q", dateOf 0, dateOf usPerDay)]) ∧
    (∀ p ∈ [(("x", 0, 0) : RQuery), ("x", 0, 0)],
      ∃ r, capSrc p.1 p.2.1 p.2.2 none = .ok r) :=
  ⟨remote_error_aborts.1 errSrc "q" 0 usPerDay none true 403 rfl,
   remote_error_aborts.2 capSrc "x" 0 1 none true 1000 _ capSrc_eval⟩

/-- C3 counterexample: `start = 0001-01-01T00:00:00.000000` and
`end = 0001-01-01T00:00:00.000001` fall on the same calendar date, the
reported total is 1000 at the cap and `exact` is true — yet the code
splits (it compares the full datetimes, `start < end`), issuing two
remote requests instead of returning the reported total after one. -/
theorem same_date_still_splits :
    dateOf 0 = dateOf 1 ∧
    (count_range capSrc "x" 0 1 none true).2.length = 2 := by
  refine ⟨rfl, ?_⟩
  rw [capSrc_eval]
  rfl

/-- C3 (amended): the no-split condition compares the full datetimes, not
the calendar dates: the reported total is returned as-is after exactly
one request iff `exact` is false, or the total is below the 1000 cap, or
`start` is not strictly before `end` as a datetime; otherwise a split
occurs (at least two requests are issued). -/
theorem no_split_condition :
    ∀ (src : Src) (qb : String) (s e : Nat) (tok : Option String) (ex : Bool)
      (resp : Resp), src qb (dateOf s) (dateOf e) tok = .ok resp →
      (¬(ex = true ∧ 1000 ≤ resp.total_count.getD 0 ∧ s < e) →
        count_range src qb s e tok ex =
          (.ok (resp.total_count.getD 0), [(qb, dateOf s, dateOf e)])) ∧
      ((ex = true ∧ 1000 ≤ resp.total_count.getD 0 ∧ s < e) →
        2 ≤ (count_range src qb s e tok ex).2.length) := by
  intro src qb s e tok ex resp h
  refine ⟨fun hc => count_range_leaf h hc, fun hc => ?_⟩
  rw [count_range_split h hc]
  obtain ⟨tl, htl⟩ :=
    @count_range_trace_head src qb s (s + pyHalf (e - s)) tok ex
  rcases hl : count_range src qb s (s + pyHalf (e - s)) tok ex with ⟨le, ltr⟩
  rw [hl] at htl
  dsimp only at htl
  subst htl
  cases le with
  | error code =>
    dsimp only
    simp only [List.length_cons]
    omega
  | ok lv =>
    dsimp only
    by_cases hg : s + pyHalf (e - s) + usPerSec > e
    · rw [if_pos hg]
      simp only [List.length_cons]
      omega
    · rw [if_neg hg]
      rcases hr : count_range src qb (s + pyHalf (e - s) + usPerSec) e tok ex
        with ⟨re, rtr⟩
      cases re with
      | error code =>
        simp only [List.cons_append, List.length_cons, List.length_append]
        omega
      | ok rv =>
        simp only [List.cons_append, List.length_cons, List.length_append]
        omega

/-- Witness for the amended C3: a below-cap response is returned as-is
after one request; the at-cap sub-day range from the counterexample
issues two. -/
theorem no_split_condition_witness :
    count_range bigSrc "q" 0 usPerDay none false =
      (.ok ((⟨some 1234⟩ : Resp).total_count.getD 0),
        [("q", dateOf 0, dateOf usPerDay)]) ∧
    2 ≤ (count_range capSrc "x" 0 1 none true).2.length :=
  ⟨(no_split_condition bigSrc "q" 0 usPerDay none false ⟨some 1234⟩ rfl).1
      (by decide),
   (no_split_condition capSrc "x" 0 1 none true ⟨some 1000⟩ rfl).2 (by decide)⟩

/-- C4: when a split occurs the midpoint is `mid = start + (end - start)/2`
(Python `timedelta` halving), the left recursion is on `[start, mid]`,
`rightStart = mid + 1 second`; if `rightStart > end` the left result alone
is returned (value and trace), otherwise the result is `left + right`
with the right recursion on `[rightStart, end]`. -/
theorem split_mechanics :
    ∀ (src : Src) (qb : String) (s e : Nat) (tok : Option String)
      (resp : Resp), src qb (dateOf s) (dateOf e) tok = .ok resp →
      1000 ≤ resp.total_count.getD 0 → s < e →
      (s + pyHalf (e - s) + usPerSec > e →
        count_range src qb s e tok true =
          ((count_range src qb s (s + pyHalf (e - s)) tok true).1,
           (qb, dateOf s, dateOf e) ::
             (count_range src qb s (s + pyHalf (e - s)) tok true).2)) ∧
      (¬(s + pyHalf (e - s) + usPerSec > e) →
        ∀ (l r : Int) (ltr rtr : List RQuery),
          count_range src qb s (s + pyHalf (e - s)) tok true = (.ok l, ltr) →
          count_range src qb (s + pyHalf (e - s) + usPerSec) e tok true =
            (.ok r, rtr) →
          count_range src qb s e tok true =
            (.ok (l + r), (qb, dateOf s, dateOf e) :: ltr ++ rtr)) := by
  intro src qb s e tok resp h h1000 hlt
  constructor
  · intro hg
    rw [count_range_split h ⟨rfl, h1000, hlt⟩]
    rcases hl : count_range src qb s (s + pyHalf (e - s)) tok true with ⟨le, ltr⟩
    cases le with
    | error code => rfl
    | ok lv => dsimp only; rw [if_pos hg]
  · intro hg l r ltr rtr hl hr
    rw [count_range_split h ⟨rfl, h1000, hlt⟩, hl]
    dsimp only
    rw [if_neg hg, hr]

/-- The constant per-day sum. -/
theorem daySum_const (c : Int) (d1 d2 : Nat) :
    daySum (fun _ => c) d1 d2 = ((d2 + 1 - d1 : Nat) : Int) * c := by
  unfold daySum
  rw [List.map_const', List.sum_replicate, List.length_range]
  simp [nsmul_eq_mul]

/-- Left half of the 1000-day example: dates `[0, 500]`, 501 reported,
below the cap, returned as a leaf. -/
theorem oneDay_left_eval :
    count_range oneMatchPerDaySrc "q" 0 (0 + pyHalf (1000 * usPerDay - 0))
        none true =
      (.ok ((⟨some 501⟩ : Resp).total_count.getD 0),
        [("q", dateOf 0, dateOf (0 + pyHalf (1000 * usPerDay - 0)))]) :=
  count_range_leaf rfl (by decide)

/-- Right half of the 1000-day example: starts one second past noon of
day 500, so its date range is `[500, 1000]` — day 500 again. -/
theorem oneDay_right_eval :
    count_range oneMatchPerDaySrc "q"
        (0 + pyHalf (1000 * usPerDay - 0) + usPerSec) (1000 * usPerDay)
        none true =
      (.ok ((⟨some 501⟩ : Resp).total_count.getD 0),
        [("q", dateOf (0 + pyHalf (1000 * usPerDay - 0) + usPerSec),
          dateOf (1000 * usPerDay))]) :=
  count_range_leaf rfl (by decide)

/-- C1: the exact-mode aggregate does **not** equal the naive day-by-day
sum for a deterministic one-match-per-day source.  Over the 1001-day range
`[0001-01-01T00:00, 0003-09-28T00:00]` (days 0..1000) the reported total
is 1001, the code splits at noon of day 500, and both halves' date ranges
contain day 500: the aggregate is 1002 while the naive sum is 1001.  The
last three conjuncts check that the source reports exactly the day-by-day
sum for each of the three ranges actually queried. -/
theorem exact_mode_double_counts :
    count_range oneMatchPerDaySrc "q" 0 (1000 * usPerDay) none true =
      (.ok 1002, [("q", 0, 1000), ("q", 0, 500), ("q", 500, 1000)]) ∧
    daySum (fun _ => 1) (dateOf 0) (dateOf (1000 * usPerDay)) = 1001 ∧
    oneMatchPerDaySrc "q" 0 1000 none = .ok ⟨some (daySum (fun _ => 1) 0 1000)⟩ ∧
    oneMatchPerDaySrc "q" 0 500 none = .ok ⟨some (daySum (fun _ => 1) 0 500)⟩ ∧
    oneMatchPerDaySrc "q" 500 1000 none = .ok ⟨some (daySum (fun _ => 1) 500 1000)⟩ := by
  refine ⟨?_, ?_, ?_, ?_, ?_⟩
  · have h : oneMatchPerDaySrc "q" (dateOf 0) (dateOf (1000 * usPerDay)) none =
        .ok ⟨some 1001⟩ := rfl
    have hc : true = true ∧
        (1000 : Int) ≤ (⟨some 1001⟩ : Resp).total_count.getD 0 ∧
        (0 : Nat) < 1000 * usPerDay := ⟨rfl, by decide, by decide⟩
    rw [count_range_split h hc, oneDay_left_eval]
    dsimp only
    rw [if_neg (by decide :
      ¬(0 + pyHalf (1000 * usPerDay - 0) + usPerSec > 1000 * usPerDay))]
    rw [oneDay_right_eval]
    rfl
  · rw [show dateOf 0 = 0 from rfl,
      show dateOf (1000 * usPerDay) = 1000 from rfl, daySum_const]
    norm_num
  · rw [daySum_const]; rfl
  · rw [daySum_const]; rfl
  · rw [daySum_const]; rfl

/-- Witness for C4: the guard branch on the sub-day at-cap range (the
degenerate split returns the left result alone), and the two-sided branch
on the 1000-day example assembling `left + right`. -/
theorem split_mechanics_witness :
    count_range capSrc "x" 0 1 none true =
      ((count_range capSrc "x" 0 (0 + pyHalf (1 - 0)) none true).1,
       ("x", dateOf 0, dateOf 1) ::
         (count_range capSrc "x" 0 (0 + pyHalf (1 - 0)) none true).2) ∧
    count_range oneMatchPerDaySrc "q" 0 (1000 * usPerDay) none true =
      (.ok ((⟨some 501⟩ : Resp).total_count.getD 0 +
            (⟨some 501⟩ : Resp).total_count.getD 0),
       ("q", dateOf 0, dateOf (1000 * usPerDay)) ::
         [("q", dateOf 0, dateOf (0 + pyHalf (1000 * usPerDay - 0)))] ++
         [("q", dateOf (0 + pyHalf (1000 * usPerDay - 0) + usPerSec),
           dateOf (1000 * usPerDay))]) :=
  by
  constructor
  · have h0 : capSrc "x" (dateOf 0) (dateOf 1) none = .ok ⟨some 1000⟩ := rfl
    exact (split_mechanics capSrc "x" 0 1 none ⟨some 1000⟩ h0 (by decide)
      (by decide)).1 (by decide)
  · have h1 : oneMatchPerDaySrc "q" (dateOf 0) (dateOf (1000 * usPerDay)) none =
        .ok ⟨some 1001⟩ := rfl
    exact (split_mechanics oneMatchPerDaySrc "q" 0 (1000 * usPerDay) none
      ⟨some 1001⟩ h1 (by decide) (by decide)).2 (by decide) _ _ _ _
      oneDay_left_eval oneDay_right_eval

/-- C7: a malformed start or end date, a start after the end, or neither
topics nor keywords provided, makes `run` return exit code 2 before any
remote request is issued. -/
theorem run_usage_error_exit2 :
    ∀ (src : Src) (envToken : Option String) (args : Args),
      (parse_date args.start = none ∨ parse_date args.end_ = none ∨
        (∃ s e, parse_date args.start = some s ∧ parse_date args.end_ = some e ∧
          e < s) ∨
        (args.topics = [] ∧ args.keywords = [])) →
      run src envToken args = (.ok 2, []) := by
  intro src envToken args h
  unfold run
  rcases hs : parse_date args.start with _ | s <;>
    rcases he : parse_date args.end_ with _ | e
  · rfl
  · rfl
  · rfl
  · rcases h with h | h | ⟨s', e', hs', he', hlt⟩ | ⟨ht, hk⟩
    · rw [hs] at h; exact Option.noConfusion h
    · rw [he] at h; exact Option.noConfusion h
    · rw [hs] at hs'
      rw [he] at he'
      obtain rfl : s = s' := by injection hs'
      obtain rfl : e = e' := by injection he'
      dsimp only
      rw [if_pos hlt]
    · dsimp only
      by_cases hgt : s > e
      · rw [if_pos hgt]
      · rw [if_neg hgt, ht, hk]
        rw [if_pos (show build_query [] [] = "" from rfl)]

/-- Witness for C7: month 99 is rejected by `strptime`, so the run exits
with code 2 and no request. -/
theorem run_usage_error_exit2_witness :
    run capSrc none ⟨"2020-99-01", "2020-01-02", ["cli"], [], false, none, false⟩ =
      (.ok 2, []) :=
  run_usage_error_exit2 capSrc none _ (Or.inl (by decide))
end GhSpyglass
